import Mathlib

/-!
# Currency-Recognition: `ImageDetector`

A shallow embedding of `src/ImageAnalysis/ImageDetector.cpp`
(`ImageDetector::detectTargets`, `ImageDetector::detectTargetsAndOutputResults`
and `ImageDetector::evaluateDetector`) together with the properties of the
greedy multi-instance detection loop and of the evaluation harness.

Conventions of the embedding.

* `float`/`double` values are exact rationals (`ℚ`); rounding is not modelled.
* The OpenCV collaborators (`FeatureDetector`, `DescriptorExtractor`,
  `cv::drawKeypoints`, `cv::contourArea`, `cv::isContourConvex`) are fields of
  `Collaborators`; they are deterministic functions.
* The `do { ... } while (...)` loop of `detectTargets` has no bound in the
  source; the embedding runs it on fuel and returns `none` when the fuel is
  exhausted. A call that returns `none` for every fuel never returns.
* The `#pragma omp parallel for` fan-out over the target database is embedded
  in sequential index order: the critical section makes each update atomic and
  the sequential order is one of the admissible schedules. The per-round
  properties are stated for every database order. `detectTargetsScheduled` runs
  each round in the order a `Schedule` gives; it is used where the order of the
  critical sections matters (repeated calls).
* `int` arithmetic is exact arithmetic wrapped into 32 bits (`wrapInt32`).
-/

namespace CurrencyRecognition

/-! ## Data model -/

/-- The correspondence type `cv::DMatch`: a query keypoint index paired with a
target (train) keypoint index. -/
structure DMatch where
  queryIdx : Nat
  trainIdx : Nat
deriving DecidableEq, Repr

/-- The point type `cv::Point2f`. -/
abbrev Point2f := ℚ × ℚ

/-- The part of `DetectorResult` that `ImageDetector.cpp` reads:
`getTargetValue`, `getBestROIMatch`, `getInliers`, `getTargetContour`. -/
structure DetectorResult where
  targetValue : Nat
  bestROIMatch : ℚ
  inliers : List DMatch
  targetContour : List Point2f
deriving DecidableEq

/-- The part of `TargetDetector` that `detectTargets` uses: `analyzeImage`,
applied to the working query keypoints and descriptors. -/
structure TargetDetector (KeyPoint Desc : Type) where
  analyzeImage : List KeyPoint → List Desc → DetectorResult

/-- The external collaborators of `ImageDetector`.
`compute` may drop keypoints for which no descriptor can be computed, so it
returns the keypoints it kept together with one descriptor row per keypoint. -/
structure Collaborators (Img KeyPoint Desc : Type) where
  detect : Img → List KeyPoint
  compute : Img → List KeyPoint → List KeyPoint × List Desc
  drawKeypoints : Img → List KeyPoint → Img
  cols : Img → Nat
  rows : Img → Nat
  contourArea : List Point2f → ℚ
  isContourConvex : List Point2f → Bool

/-- Calls made to the collaborators, in program order. -/
inductive Event where
  | featureDetect
  | descriptorCompute
  | drawKeypoints
  | analyzeImage (target : Nat)
  | removeInliers
deriving DecidableEq, Repr

/-- The local variables of `detectTargets` that live across rounds. -/
structure Session (KeyPoint Desc : Type) where
  keypointsQueryImage : List KeyPoint
  descriptorsQueryImage : List Desc
  bestDetectorResult : Option DetectorResult
  detectorResults : List DetectorResult
  rounds : Nat
  log : List Event

/-- What a call of `detectTargets` leaves behind: the returned list, the
caller's image (passed by non-const reference), the number of rounds run and the
collaborator calls made. -/
structure Outcome (Img : Type) where
  detectorResults : List DetectorResult
  image : Img
  rounds : Nat
  log : List Event

/-! ## `detectTargets` -/

/-- Keeps the elements of a list whose position (counted from `i`) is not in
`positions`. -/
def eraseIndices {α : Type} (positions : List Nat) : Nat → List α → List α
  | _, [] => []
  | i, x :: xs =>
    if i ∈ positions then eraseIndices positions (i + 1) xs
    else x :: eraseIndices positions (i + 1) xs

/-- Modelled from the spec: `ImageUtils::removeInliersFromKeypointsAndDescriptors`
is not among the sources. The spec (§4.3 step 5) says that the winning
candidate's inlier correspondences are removed from the working query
keypoints/descriptors: every working keypoint, and its descriptor row, whose
index is the query index of an inlier is dropped; the others keep their order. -/
def removeInliersFromKeypointsAndDescriptors {KeyPoint Desc : Type}
    (inliers : List DMatch) (keypoints : List KeyPoint) (descriptors : List Desc) :
    List KeyPoint × List Desc :=
  (eraseIndices (inliers.map DMatch.queryIdx) 0 keypoints,
   eraseIndices (inliers.map DMatch.queryIdx) 0 descriptors)

/-- The geometric gate of line 109:
`contourArea / imageArea > minimumTargetAreaPercentage && isContourConvex`.
A zero image area makes the float quotient `+inf` for a positive contour area
(which exceeds every threshold) and NaN for a zero one (which exceeds none). -/
def passesGate {Img KeyPoint Desc : Type} (c : Collaborators Img KeyPoint Desc)
    (imageArea minimumTargetAreaPercentage : ℚ) (r : DetectorResult) : Bool :=
  (if imageArea = 0 then decide (0 < c.contourArea r.targetContour)
   else decide (c.contourArea r.targetContour / imageArea > minimumTargetAreaPercentage))
  && c.isContourConvex r.targetContour

/-- One iteration of the `for` loop body after `analyzeImage` (lines 105-117):
the pair is `(bestMatch, bestDetectorResult)`. -/
def considerCandidate {Img KeyPoint Desc : Type} (c : Collaborators Img KeyPoint Desc)
    (imageArea minimumTargetAreaPercentage : ℚ)
    (acc : ℚ × Option DetectorResult) (r : DetectorResult) : ℚ × Option DetectorResult :=
  if passesGate c imageArea minimumTargetAreaPercentage r = true then
    if r.bestROIMatch > acc.1 then (r.bestROIMatch, some r) else acc
  else acc

/-- The results of `_targetDetectors[i].analyzeImage(keypoints, descriptors)`
for `i = 0, ..., targetDetectorsSize - 1`. -/
def candidates {KeyPoint Desc : Type} (targetDetectors : List (TargetDetector KeyPoint Desc))
    (keypoints : List KeyPoint) (descriptors : List Desc) : List DetectorResult :=
  targetDetectors.map (fun t => t.analyzeImage keypoints descriptors)

/-- The `for` loop of lines 100-118: `bestMatch` restarts at `0`,
`bestDetectorResult` keeps whatever the previous round left in it. -/
def scanTargets {Img KeyPoint Desc : Type} (c : Collaborators Img KeyPoint Desc)
    (imageArea minimumTargetAreaPercentage : ℚ)
    (cands : List DetectorResult) (bestDetectorResult : Option DetectorResult) :
    ℚ × Option DetectorResult :=
  cands.foldl (considerCandidate c imageArea minimumTargetAreaPercentage) (0, bestDetectorResult)

/-- The statements of lines 120-127, given the `bestMatch` and
`bestDetectorResult` the `for` loop produced. -/
def applyBest {KeyPoint Desc : Type}
    (minimumMatchAllowed : ℚ) (minimumNumberInliers : Nat)
    (s : Session KeyPoint Desc) (bestMatch : ℚ) (best : Option DetectorResult)
    (log : List Event) : Session KeyPoint Desc :=
  match best with
  | some r =>
    if bestMatch > minimumMatchAllowed then
      let reduced := removeInliersFromKeypointsAndDescriptors r.inliers
        s.keypointsQueryImage s.descriptorsQueryImage
      { keypointsQueryImage := reduced.1
        descriptorsQueryImage := reduced.2
        bestDetectorResult := some r
        detectorResults :=
          if r.inliers.length > minimumNumberInliers then s.detectorResults ++ [r]
          else s.detectorResults
        rounds := s.rounds + 1
        log := log ++ [Event.removeInliers] }
    else
      { s with bestDetectorResult := some r, rounds := s.rounds + 1, log := log }
  | none =>
    { s with bestDetectorResult := none, rounds := s.rounds + 1, log := log }

/-- One pass through the body of the `do ... while` loop (lines 100-127):
returns the `bestMatch` the loop condition will test and the updated locals. -/
def runRound {Img KeyPoint Desc : Type} (c : Collaborators Img KeyPoint Desc)
    (targetDetectors : List (TargetDetector KeyPoint Desc)) (imageArea : ℚ)
    (minimumMatchAllowed : ℚ) (minimumNumberInliers : Nat) (minimumTargetAreaPercentage : ℚ)
    (s : Session KeyPoint Desc) : ℚ × Session KeyPoint Desc :=
  let scan := scanTargets c imageArea minimumTargetAreaPercentage
    (candidates targetDetectors s.keypointsQueryImage s.descriptorsQueryImage)
    s.bestDetectorResult
  (scan.1, applyBest minimumMatchAllowed minimumNumberInliers s scan.1 scan.2
    (s.log ++ (List.range targetDetectors.length).map Event.analyzeImage))

/-- The `do ... while (bestMatch > minimumMatchAllowed)` loop of lines 99-128,
run for at most `fuel` rounds. -/
def detectLoop {Img KeyPoint Desc : Type} (c : Collaborators Img KeyPoint Desc)
    (targetDetectors : List (TargetDetector KeyPoint Desc)) (imageArea : ℚ)
    (minimumMatchAllowed : ℚ) (minimumNumberInliers : Nat) (minimumTargetAreaPercentage : ℚ) :
    Nat → Session KeyPoint Desc → Option (Session KeyPoint Desc)
  | 0, _ => none
  | fuel + 1, s =>
    let round := runRound c targetDetectors imageArea minimumMatchAllowed
      minimumNumberInliers minimumTargetAreaPercentage s
    if round.1 > minimumMatchAllowed then
      detectLoop c targetDetectors imageArea minimumMatchAllowed minimumNumberInliers
        minimumTargetAreaPercentage fuel round.2
    else some round.2

/-- The locals of `detectTargets` on entry to the loop (lines 89-97). -/
def initialSession {Img KeyPoint Desc : Type} (c : Collaborators Img KeyPoint Desc)
    (image : Img) : Session KeyPoint Desc :=
  { keypointsQueryImage := (c.compute image (c.detect image)).1
    descriptorsQueryImage := (c.compute image (c.detect image)).2
    bestDetectorResult := none
    detectorResults := []
    rounds := 0
    log := [Event.featureDetect, Event.descriptorCompute, Event.drawKeypoints] }

/-- The image as `detectTargets` leaves it when the loop is entered: line 92
draws the query keypoints onto the caller's image. -/
def annotatedImage {Img KeyPoint Desc : Type} (c : Collaborators Img KeyPoint Desc)
    (image : Img) : Img :=
  c.drawKeypoints image (c.compute image (c.detect image)).1

/-- The value of a 32-bit `int` expression whose exact value is `n`: the
two's-complement wrap into `[-2^31, 2^31)`. -/
def wrapInt32 (n : Int) : Int :=
  (n + 2147483648) % 4294967296 - 2147483648

/-- The image area `(float)(image.cols * image.rows)` read inside the loop
(line 106), on the image with the keypoints drawn: the product is taken in
`int` before the cast. -/
def loopImageArea {Img KeyPoint Desc : Type} (c : Collaborators Img KeyPoint Desc)
    (image : Img) : ℚ :=
  ((wrapInt32 ((c.cols (annotatedImage c image) : Int) * (c.rows (annotatedImage c image) : Int))
    : Int) : ℚ)

/-- The method `ImageDetector::detectTargets` (lines 82-131). -/
def detectTargets {Img KeyPoint Desc : Type} (c : Collaborators Img KeyPoint Desc)
    (targetDetectors : List (TargetDetector KeyPoint Desc)) (fuel : Nat) (image : Img)
    (minimumMatchAllowed : ℚ) (minimumNumberInliers : Nat) (minimumTargetAreaPercentage : ℚ) :
    Option (Outcome Img) :=
  if (c.detect image).length < 4 then
    some { detectorResults := [], image := image, rounds := 0, log := [Event.featureDetect] }
  else
    (detectLoop c targetDetectors (loopImageArea c image)
        minimumMatchAllowed minimumNumberInliers minimumTargetAreaPercentage fuel
        (initialSession c image)).map
      (fun s => { detectorResults := s.detectorResults, image := annotatedImage c image,
                  rounds := s.rounds, log := s.log })

/-! ## `detectTargets` under an arbitrary order of the critical sections

The `for` loop of lines 102-118 runs under `#pragma omp parallel for
schedule(dynamic)`: the calls of `analyzeImage` only read the working query data
and the updates of `bestMatch` and `bestDetectorResult` are serialised by the
critical section, in an order the source does not fix. A round is therefore the
sequential loop over some permutation of the database. -/

/-- The order of the critical sections: in round `k` the entries of the
database are taken in the order `order k db`, a permutation of the database. -/
structure Schedule (KeyPoint Desc : Type) where
  order : Nat → List (TargetDetector KeyPoint Desc) → List (TargetDetector KeyPoint Desc)
  perm : ∀ (k : Nat) (db : List (TargetDetector KeyPoint Desc)), (order k db).Perm db

/-- The `do ... while` loop of lines 99-128 when the critical sections of each
round run in the order the schedule gives. -/
def detectLoopScheduled {Img KeyPoint Desc : Type} (c : Collaborators Img KeyPoint Desc)
    (targetDetectors : List (TargetDetector KeyPoint Desc)) (schedule : Schedule KeyPoint Desc)
    (imageArea : ℚ) (minimumMatchAllowed : ℚ) (minimumNumberInliers : Nat)
    (minimumTargetAreaPercentage : ℚ) :
    Nat → Session KeyPoint Desc → Option (Session KeyPoint Desc)
  | 0, _ => none
  | fuel + 1, s =>
    let round := runRound c (schedule.order s.rounds targetDetectors) imageArea
      minimumMatchAllowed minimumNumberInliers minimumTargetAreaPercentage s
    if round.1 > minimumMatchAllowed then
      detectLoopScheduled c targetDetectors schedule imageArea minimumMatchAllowed
        minimumNumberInliers minimumTargetAreaPercentage fuel round.2
    else some round.2

/-- The method `ImageDetector::detectTargets` (lines 82-131) when the critical
sections of each round run in the order the schedule gives. -/
def detectTargetsScheduled {Img KeyPoint Desc : Type} (c : Collaborators Img KeyPoint Desc)
    (targetDetectors : List (TargetDetector KeyPoint Desc)) (schedule : Schedule KeyPoint Desc)
    (fuel : Nat) (image : Img)
    (minimumMatchAllowed : ℚ) (minimumNumberInliers : Nat) (minimumTargetAreaPercentage : ℚ) :
    Option (Outcome Img) :=
  if (c.detect image).length < 4 then
    some { detectorResults := [], image := image, rounds := 0, log := [Event.featureDetect] }
  else
    (detectLoopScheduled c targetDetectors schedule (loopImageArea c image)
        minimumMatchAllowed minimumNumberInliers minimumTargetAreaPercentage fuel
        (initialSession c image)).map
      (fun s => { detectorResults := s.detectorResults, image := annotatedImage c image,
                  rounds := s.rounds, log := s.log })

/-- The schedule that takes the database in index order in every round. -/
def sequentialSchedule (KeyPoint Desc : Type) : Schedule KeyPoint Desc where
  order := fun _ db => db
  perm := fun _ db => List.Perm.refl db

/-- The per-image values read from `DetectorEvaluationResult(results, expected)`
through `getPrecision`, `getRecall` and `getAccuracy`. -/
structure Metrics where
  getPrecision : ℚ
  getRecall : ℚ
  getAccuracy : ℚ
deriving DecidableEq

/-- A `double` as far as `evaluateDetector` needs it: an exact rational, or the
NaN that `0.0 / 0.0` produces. -/
inductive Dbl where
  | val (q : ℚ)
  | nan
deriving DecidableEq

/-- The returned `DetectorEvaluationResult(globalPrecision, globalRecall,
globalAccuracy)`. -/
structure DetectorEvaluationResult where
  getPrecision : Dbl
  getRecall : Dbl
  getAccuracy : Dbl
deriving DecidableEq

/-- What `evaluateDetector` works with besides the files: the collaborators and
database of the detector, the image preprocessor (`none` when the image does not
load), the default arguments of `detectTargets` declared in `ImageDetector.h`,
and the per-image constructor `DetectorEvaluationResult(results, expected)`. -/
structure EvaluationSetup (Img KeyPoint Desc : Type) where
  collaborators : Collaborators Img KeyPoint Desc
  targetDetectors : List (TargetDetector KeyPoint Desc)
  loadAndPreprocessImage : String → Option Img
  minimumMatchAllowed : ℚ
  minimumNumberInliers : Nat
  minimumTargetAreaPercentage : ℚ
  evaluationResult : List Nat → List Nat → Metrics

/-- The accumulators `globalPrecision`, `globalRecall`, `globalAccuracy` and
`numberTestImages` of `evaluateDetector`. -/
structure EvalTotals where
  globalPrecision : ℚ
  globalRecall : ℚ
  globalAccuracy : ℚ
  numberTestImages : Nat
deriving DecidableEq

/-- The values returned by `ImageDetector::detectTargetsAndOutputResults`
(lines 134-177): the target values of the results of `detectTargets(image)`, in
order. The drawing and file output of that method is not modelled. -/
def detectTargetsAndOutputResults {Img KeyPoint Desc : Type}
    (e : EvaluationSetup Img KeyPoint Desc) (fuel : Nat) (image : Img) : Option (List Nat) :=
  (detectTargets e.collaborators e.targetDetectors fuel image e.minimumMatchAllowed
    e.minimumNumberInliers e.minimumTargetAreaPercentage).map
    (fun out => out.detectorResults.map DetectorResult.targetValue)

/-- The body of the `for` loop of lines 218-272 for one line of the test list:
an image that does not load leaves the accumulators alone. -/
def evaluateImage {Img KeyPoint Desc : Type} (e : EvaluationSetup Img KeyPoint Desc)
    (fuel : Nat) (totals : EvalTotals) (entry : String × List Nat) : Option EvalTotals :=
  match e.loadAndPreprocessImage entry.1 with
  | none => some totals
  | some image =>
    match detectTargetsAndOutputResults e fuel image with
    | none => none
    | some results =>
      let evaluation := e.evaluationResult (results.insertionSort (· ≤ ·)) entry.2
      some { globalPrecision := totals.globalPrecision + evaluation.getPrecision
             globalRecall := totals.globalRecall + evaluation.getRecall
             globalAccuracy := totals.globalAccuracy + evaluation.getAccuracy
             numberTestImages := totals.numberTestImages + 1 }

/-- The `for` loop of lines 218-272 over the parsed lines of the test list. -/
def evaluateImages {Img KeyPoint Desc : Type} (e : EvaluationSetup Img KeyPoint Desc)
    (fuel : Nat) : List (String × List Nat) → EvalTotals → Option EvalTotals
  | [], totals => some totals
  | entry :: rest, totals =>
    match evaluateImage e fuel totals entry with
    | none => none
    | some totals' => evaluateImages e fuel rest totals'

/-- The divisions of lines 274-276, `global /= (double)numberTestImages`. The
accumulators are `0` whenever the count is `0`, so a zero count gives
`0.0 / 0.0`. -/
def divideByCount (total : ℚ) (numberTestImages : Nat) : Dbl :=
  if numberTestImages = 0 then Dbl.nan else Dbl.val (total / numberTestImages)

/-- The method `ImageDetector::evaluateDetector` (lines 180-287).
`resultsFileOpen` is `resutlsFile.is_open()`; `imgsList` is the parsed test list,
`none` when the file cannot be opened. The outer `Option` is `none` when a call
of `detectTargets` runs out of fuel. -/
def evaluateDetector {Img KeyPoint Desc : Type} (e : EvaluationSetup Img KeyPoint Desc)
    (fuel : Nat) (resultsFileOpen : Bool) (imgsList : Option (List (String × List Nat))) :
    Option DetectorEvaluationResult :=
  match resultsFileOpen, imgsList with
  | true, some entries =>
    (evaluateImages e fuel entries
      { globalPrecision := 0, globalRecall := 0, globalAccuracy := 0,
        numberTestImages := 0 }).map
      (fun totals =>
        { getPrecision := divideByCount totals.globalPrecision totals.numberTestImages
          getRecall := divideByCount totals.globalRecall totals.numberTestImages
          getAccuracy := divideByCount totals.globalAccuracy totals.numberTestImages })
  | _, _ => some { getPrecision := Dbl.val 0, getRecall := Dbl.val 0, getAccuracy := Dbl.val 0 }

/-! ## Notions used to state the properties -/

/-- `r` is the best candidate of a round with candidate list `cands`: it passed
the geometric gate, its score is positive, every gated candidate evaluated
before it has a strictly smaller score and no gated candidate evaluated after it
has a larger one. -/
def IsRoundBest {Img KeyPoint Desc : Type} (c : Collaborators Img KeyPoint Desc)
    (imageArea minimumTargetAreaPercentage : ℚ)
    (cands : List DetectorResult) (r : DetectorResult) : Prop :=
  ∃ pre post, cands = pre ++ r :: post ∧
    passesGate c imageArea minimumTargetAreaPercentage r = true ∧
    0 < r.bestROIMatch ∧
    (∀ x ∈ pre, passesGate c imageArea minimumTargetAreaPercentage x = true →
      x.bestROIMatch < r.bestROIMatch) ∧
    (∀ x ∈ post, passesGate c imageArea minimumTargetAreaPercentage x = true →
      x.bestROIMatch ≤ r.bestROIMatch)

/-- A positive score comes with an inlier that refers to one of the query
keypoints `analyzeImage` was given (the spec's score is the number of inliers
over the number of target keypoints, and an inlier pairs a query keypoint index
with a target keypoint index). -/
def InliersInRange {KeyPoint Desc : Type} (db : List (TargetDetector KeyPoint Desc)) : Prop :=
  ∀ t ∈ db, ∀ (keypoints : List KeyPoint) (descriptors : List Desc),
    0 < (t.analyzeImage keypoints descriptors).bestROIMatch →
    ∃ m ∈ (t.analyzeImage keypoints descriptors).inliers, m.queryIdx < keypoints.length

/-- No candidate has a positive score on fewer than 4 working query keypoints
(the spec's transform fit needs at least 4 correspondences). -/
def FitNeedsFour {KeyPoint Desc : Type} (db : List (TargetDetector KeyPoint Desc)) : Prop :=
  ∀ t ∈ db, ∀ (keypoints : List KeyPoint) (descriptors : List Desc),
    0 < (t.analyzeImage keypoints descriptors).bestROIMatch → 4 ≤ keypoints.length

/-- The successfully loaded images of a test list, each with its expected ids. -/
def loadedImages {Img KeyPoint Desc : Type} (e : EvaluationSetup Img KeyPoint Desc)
    (entries : List (String × List Nat)) : List (Img × List Nat) :=
  entries.filterMap
    (fun entry => (e.loadAndPreprocessImage entry.1).map (fun image => (image, entry.2)))

/-- The per-image metrics of a loaded image: the evaluation of the sorted
detected ids (none when the detection does not return) against the expected
ids. -/
def imageMetrics {Img KeyPoint Desc : Type} (e : EvaluationSetup Img KeyPoint Desc)
    (fuel : Nat) (loaded : Img × List Nat) : Metrics :=
  e.evaluationResult
    (((detectTargetsAndOutputResults e fuel loaded.1).getD []).insertionSort (· ≤ ·)) loaded.2

/-- The arithmetic mean of a list of values, as the spec words the aggregate:
their sum divided by their number. -/
def arithmeticMean (values : List ℚ) : ℚ := values.sum / values.length

/-- Modelled from the spec: the constructor `DetectorEvaluationResult(results,
expected)` is not among the sources. Spec §4.4: `truePositives` is the size of
the multiset intersection; `precision = truePositives / detectedCount` (`0` if
`detectedCount` is `0`); `recall = truePositives / expectedCount` (`0` if
`expectedCount` is `0`); accuracy is the agreement normalised by the size of the
multiset union, `1` if both are empty. -/
def specEvaluationResult (results expected : List Nat) : Metrics :=
  let truePositives := (results.bagInter expected).length
  { getPrecision := if results.length = 0 then 0 else (truePositives : ℚ) / results.length
    getRecall := if expected.length = 0 then 0 else (truePositives : ℚ) / expected.length
    getAccuracy :=
      if results.length = 0 ∧ expected.length = 0 then 1
      else (truePositives : ℚ) / (results.length + expected.length - truePositives : Nat) }

/-- A target whose reference has `5` keypoints: it matches the first four
working query keypoints when at least six are left (score `4/5`, a convex
contour of area `1`), and finds nothing otherwise. -/
def targetA : TargetDetector Nat Nat where
  analyzeImage := fun keypoints _ =>
    if 6 ≤ keypoints.length then
      { targetValue := 1, bestROIMatch := 4 / 5,
        inliers := [⟨0, 0⟩, ⟨1, 1⟩, ⟨2, 2⟩, ⟨3, 3⟩],
        targetContour := [(0, 0), (1, 0), (1, 1), (0, 1)] }
    else
      { targetValue := 1, bestROIMatch := 0, inliers := [], targetContour := [] }

/-- A target for which no transform can be fitted: score `0`, empty contour. -/
def targetB : TargetDetector Nat Nat where
  analyzeImage := fun _ _ =>
    { targetValue := 2, bestROIMatch := 0, inliers := [], targetContour := [] }

/-- Images are numbered; image `0` is the untouched photograph, on which the
detector finds six keypoints; drawing keypoints onto an image gives the next
number, and on a drawn-over image the detector finds only the three blobs of the
drawing. Contours are convex when they have four corners, with area `1`; every
image is `2 x 2`. -/
def world : Collaborators Nat Nat Nat where
  detect := fun image => if image = 0 then [10, 11, 12, 13, 14, 15] else [20, 21, 22]
  compute := fun _ keypoints => (keypoints, keypoints)
  drawKeypoints := fun image _ => image + 1
  cols := fun _ => 2
  rows := fun _ => 2
  contourArea := fun contour => if contour.length = 4 then 1 else 0
  isContourConvex := fun contour => decide (contour.length = 4)

/-- What `targetA` reports on a query with at least six working keypoints. -/
def resultA : DetectorResult :=
  { targetValue := 1, bestROIMatch := 4 / 5,
    inliers := [⟨0, 0⟩, ⟨1, 1⟩, ⟨2, 2⟩, ⟨3, 3⟩],
    targetContour := [(0, 0), (1, 0), (1, 1), (0, 1)] }

/-- What `targetB` reports on every query. -/
def resultB : DetectorResult :=
  { targetValue := 2, bestROIMatch := 0, inliers := [], targetContour := [] }

/-- The locals of `detectTargets` after round one of the scenario: image `0`
against `[targetA, targetB]` with threshold `1/10`, more than 3 inliers and a
minimum area fraction of `1/10`. -/
def sessionAfterRoundOne : Session Nat Nat :=
  { keypointsQueryImage := [14, 15]
    descriptorsQueryImage := [14, 15]
    bestDetectorResult := some resultA
    detectorResults := [resultA]
    rounds := 1
    log := [Event.featureDetect, Event.descriptorCompute, Event.drawKeypoints,
      Event.analyzeImage 0, Event.analyzeImage 1, Event.removeInliers] }

/-- A test setup over `world`: `photo.png` loads as image `0`, `blank.png` loads
as the drawn-over image `1`, nothing else loads. -/
def testSetup : EvaluationSetup Nat Nat Nat where
  collaborators := world
  targetDetectors := [targetA, targetB]
  loadAndPreprocessImage := fun filename =>
    if filename = "photo.png" then some 0
    else if filename = "blank.png" then some 1 else none
  minimumMatchAllowed := 1 / 10
  minimumNumberInliers := 3
  minimumTargetAreaPercentage := 1 / 10
  evaluationResult := specEvaluationResult

/-- A test list of three lines: a photograph of target `1`, a file that does
not load, and a drawn-over image on which target `1` is expected. -/
def testEntries : List (String × List Nat) :=
  [("photo.png", [1]), ("missing.png", [2]), ("blank.png", [1])]

/-! ## The selection of a round's best candidate -/

section Selection

variable {Img KeyPoint Desc : Type} (c : Collaborators Img KeyPoint Desc)
  (imageArea minArea : ℚ)

theorem considerCandidate_fst_ge (acc : ℚ × Option DetectorResult) (r : DetectorResult) :
    acc.1 ≤ (considerCandidate c imageArea minArea acc r).1 := by
  unfold considerCandidate
  split_ifs with hg hs
  · exact le_of_lt hs
  · exact le_refl _
  · exact le_refl _

theorem foldl_considerCandidate_fst_ge (l : List DetectorResult)
    (acc : ℚ × Option DetectorResult) :
    acc.1 ≤ (l.foldl (considerCandidate c imageArea minArea) acc).1 := by
  induction l generalizing acc with
  | nil => simp
  | cons x xs ih =>
    simp only [List.foldl_cons]
    exact le_trans (considerCandidate_fst_ge c imageArea minArea acc x) (ih _)

theorem scanTargets_fst_nonneg (cands : List DetectorResult) (prev : Option DetectorResult) :
    0 ≤ (scanTargets c imageArea minArea cands prev).1 :=
  foldl_considerCandidate_fst_ge c imageArea minArea cands (0, prev)

/-- Candidates that are not gated, or whose score does not exceed the current
`bestMatch`, leave `bestMatch` and `bestDetectorResult` as they are. -/
theorem foldl_considerCandidate_keep (l : List DetectorResult) (b : ℚ)
    (o : Option DetectorResult)
    (h : ∀ x ∈ l, passesGate c imageArea minArea x = true → x.bestROIMatch ≤ b) :
    l.foldl (considerCandidate c imageArea minArea) (b, o) = (b, o) := by
  induction l with
  | nil => simp
  | cons x xs ih =>
    have hx : considerCandidate c imageArea minArea (b, o) x = (b, o) := by
      unfold considerCandidate
      split_ifs with hg hs
      · exact absurd hs (not_lt.mpr (h x (List.mem_cons_self _ _) hg))
      · rfl
      · rfl
    simp only [List.foldl_cons, hx]
    exact ih (fun y hy => h y (List.mem_cons_of_mem _ hy))

theorem foldl_considerCandidate_lt (l : List DetectorResult) (acc : ℚ × Option DetectorResult)
    (v : ℚ) (hb : acc.1 < v)
    (h : ∀ x ∈ l, passesGate c imageArea minArea x = true → x.bestROIMatch < v) :
    (l.foldl (considerCandidate c imageArea minArea) acc).1 < v := by
  induction l generalizing acc with
  | nil => simpa using hb
  | cons x xs ih =>
    simp only [List.foldl_cons]
    apply ih
    · unfold considerCandidate
      split_ifs with hg hs
      · exact h x (List.mem_cons_self _ _) hg
      · exact hb
      · exact hb
    · exact fun y hy => h y (List.mem_cons_of_mem _ hy)

theorem considerCandidate_update (acc : ℚ × Option DetectorResult) (r : DetectorResult)
    (hg : passesGate c imageArea minArea r = true) (hlt : acc.1 < r.bestROIMatch) :
    considerCandidate c imageArea minArea acc r = (r.bestROIMatch, some r) := by
  unfold considerCandidate
  rw [if_pos hg, if_pos hlt]

/-- When the round has a best candidate, the `for` loop ends with that
candidate and its score, whatever `bestDetectorResult` held before. -/
theorem scanTargets_of_isRoundBest (cands : List DetectorResult) (r : DetectorResult)
    (prev : Option DetectorResult) (h : IsRoundBest c imageArea minArea cands r) :
    scanTargets c imageArea minArea cands prev = (r.bestROIMatch, some r) := by
  obtain ⟨pre, post, hsplit, hg, hpos, hpre, hpost⟩ := h
  have hlt := foldl_considerCandidate_lt c imageArea minArea pre (0, prev) r.bestROIMatch
    hpos hpre
  have hstep : considerCandidate c imageArea minArea
      (pre.foldl (considerCandidate c imageArea minArea) (0, prev)) r
      = (r.bestROIMatch, some r) :=
    considerCandidate_update c imageArea minArea _ r hg hlt
  unfold scanTargets
  rw [hsplit, List.foldl_append, List.foldl_cons, hstep]
  exact foldl_considerCandidate_keep c imageArea minArea post _ _ hpost

/-- Every candidate list either has no gated candidate of positive score or
has a best candidate. -/
theorem roundBest_or_none (cands : List DetectorResult) :
    (∀ x ∈ cands, passesGate c imageArea minArea x = true → x.bestROIMatch ≤ 0) ∨
    ∃ r, IsRoundBest c imageArea minArea cands r := by
  induction cands with
  | nil => left; simp
  | cons x xs ih =>
    by_cases hx : passesGate c imageArea minArea x = true ∧ 0 < x.bestROIMatch
    · rcases ih with hnone | ⟨r, pre, post, hsplit, hg, hpos, hpre, hpost⟩
      · right
        refine ⟨x, [], xs, rfl, hx.1, hx.2, by simp, ?_⟩
        exact fun y hy hgy => le_trans (hnone y hy hgy) (le_of_lt hx.2)
      · by_cases hle : r.bestROIMatch ≤ x.bestROIMatch
        · right
          refine ⟨x, [], xs, rfl, hx.1, hx.2, by simp, ?_⟩
          intro y hy hgy
          rw [hsplit] at hy
          rcases List.mem_append.mp hy with hy | hy
          · exact le_trans (le_of_lt (hpre y hy hgy)) hle
          · rcases List.mem_cons.mp hy with hy | hy
            · rw [hy]; exact hle
            · exact le_trans (hpost y hy hgy) hle
        · right
          refine ⟨r, x :: pre, post, by rw [hsplit]; rfl, hg, hpos, ?_, hpost⟩
          intro y hy hgy
          rcases List.mem_cons.mp hy with hy | hy
          · rw [hy]; exact not_le.mp hle
          · exact hpre y hy hgy
    · rcases ih with hnone | ⟨r, pre, post, hsplit, hg, hpos, hpre, hpost⟩
      · left
        intro y hy hgy
        rcases List.mem_cons.mp hy with hy | hy
        · rw [hy] at hgy ⊢
          exact not_lt.mp (fun hp => hx ⟨hgy, hp⟩)
        · exact hnone y hy hgy
      · right
        refine ⟨r, x :: pre, post, by rw [hsplit]; rfl, hg, hpos, ?_, hpost⟩
        intro y hy hgy
        rcases List.mem_cons.mp hy with hy | hy
        · rw [hy] at hgy ⊢
          exact lt_of_le_of_lt (not_lt.mp (fun hp => hx ⟨hgy, hp⟩)) hpos
        · exact hpre y hy hgy

/-- The two outcomes of the `for` loop of a round. -/
theorem scanTargets_cases (cands : List DetectorResult) (prev : Option DetectorResult) :
    (scanTargets c imageArea minArea cands prev = (0, prev) ∧
      ∀ x ∈ cands, passesGate c imageArea minArea x = true → x.bestROIMatch ≤ 0) ∨
    ∃ r, IsRoundBest c imageArea minArea cands r ∧
      scanTargets c imageArea minArea cands prev = (r.bestROIMatch, some r) := by
  rcases roundBest_or_none c imageArea minArea cands with hnone | ⟨r, hr⟩
  · exact Or.inl ⟨foldl_considerCandidate_keep c imageArea minArea cands 0 prev hnone, hnone⟩
  · exact Or.inr ⟨r, hr, scanTargets_of_isRoundBest c imageArea minArea cands r prev hr⟩

theorem IsRoundBest.mem {cands : List DetectorResult} {r : DetectorResult}
    (h : IsRoundBest c imageArea minArea cands r) : r ∈ cands := by
  obtain ⟨pre, post, hsplit, -⟩ := h
  rw [hsplit]
  simp

/-- The score of a round's best candidate bounds the score of every gated
candidate of the round. -/
theorem IsRoundBest.le {cands : List DetectorResult} {r : DetectorResult}
    (h : IsRoundBest c imageArea minArea cands r) (x : DetectorResult) (hx : x ∈ cands)
    (hg : passesGate c imageArea minArea x = true) : x.bestROIMatch ≤ r.bestROIMatch := by
  obtain ⟨pre, post, hsplit, -, -, hpre, hpost⟩ := h
  rw [hsplit] at hx
  rcases List.mem_append.mp hx with hx | hx
  · exact le_of_lt (hpre x hx hg)
  · rcases List.mem_cons.mp hx with hx | hx
    · rw [hx]
    · exact hpost x hx hg

end Selection

/-! ## The round and the loop -/

theorem length_eraseIndices_le {α : Type} (positions : List Nat) (i : Nat) (l : List α) :
    (eraseIndices positions i l).length ≤ l.length := by
  induction l generalizing i with
  | nil => simp [eraseIndices]
  | cons x xs ih =>
    unfold eraseIndices
    split_ifs
    · exact le_trans (ih (i + 1)) (Nat.le_succ _)
    · simpa using ih (i + 1)

/-- Erasing at least one position that lies inside the list shortens it. -/
theorem length_eraseIndices_lt {α : Type} (positions : List Nat) (i : Nat) (l : List α)
    (p : Nat) (hp : p ∈ positions) (hlo : i ≤ p) (hhi : p < i + l.length) :
    (eraseIndices positions i l).length < l.length := by
  induction l generalizing i with
  | nil => simp at hhi; omega
  | cons x xs ih =>
    unfold eraseIndices
    by_cases hi : i ∈ positions
    · rw [if_pos hi]
      exact Nat.lt_succ_of_le (length_eraseIndices_le positions (i + 1) xs)
    · rw [if_neg hi]
      have hne : i ≠ p := fun h => hi (h ▸ hp)
      have := ih (i + 1) (by omega) (by simp at hhi; omega)
      simpa using this

section Loop

variable {Img KeyPoint Desc : Type} (c : Collaborators Img KeyPoint Desc)
  (db : List (TargetDetector KeyPoint Desc)) (imageArea thr : ℚ) (mi : Nat) (minArea : ℚ)

theorem applyBest_rounds (s : Session KeyPoint Desc) (bestMatch : ℚ)
    (best : Option DetectorResult) (log : List Event) :
    (applyBest thr mi s bestMatch best log).rounds = s.rounds + 1 := by
  cases best with
  | none => rfl
  | some r =>
    simp only [applyBest]
    split_ifs <;> rfl

theorem runRound_rounds (s : Session KeyPoint Desc) :
    (runRound c db imageArea thr mi minArea s).2.rounds = s.rounds + 1 :=
  applyBest_rounds thr mi s _ _ _

/-- The round of a session whose candidates have a best one above the
threshold: the best candidate is appended when it has enough inliers, and its
inliers are removed. -/
theorem runRound_of_isRoundBest (s : Session KeyPoint Desc) (r : DetectorResult)
    (h : IsRoundBest c imageArea minArea
      (candidates db s.keypointsQueryImage s.descriptorsQueryImage) r)
    (hthr : r.bestROIMatch > thr) :
    runRound c db imageArea thr mi minArea s =
      (r.bestROIMatch,
       { keypointsQueryImage := (removeInliersFromKeypointsAndDescriptors r.inliers
            s.keypointsQueryImage s.descriptorsQueryImage).1
         descriptorsQueryImage := (removeInliersFromKeypointsAndDescriptors r.inliers
            s.keypointsQueryImage s.descriptorsQueryImage).2
         bestDetectorResult := some r
         detectorResults :=
           if r.inliers.length > mi then s.detectorResults ++ [r] else s.detectorResults
         rounds := s.rounds + 1
         log := s.log ++ (List.range db.length).map Event.analyzeImage
           ++ [Event.removeInliers] }) := by
  unfold runRound
  rw [scanTargets_of_isRoundBest c imageArea minArea _ r s.bestDetectorResult h]
  simp only [applyBest, if_pos hthr]

/-- The round of a session whose best candidate does not exceed the threshold
changes neither the output nor the working query data. -/
theorem runRound_of_isRoundBest_le (s : Session KeyPoint Desc) (r : DetectorResult)
    (h : IsRoundBest c imageArea minArea
      (candidates db s.keypointsQueryImage s.descriptorsQueryImage) r)
    (hthr : ¬ r.bestROIMatch > thr) :
    runRound c db imageArea thr mi minArea s =
      (r.bestROIMatch,
       { s with bestDetectorResult := some r, rounds := s.rounds + 1,
                log := s.log ++ (List.range db.length).map Event.analyzeImage }) := by
  unfold runRound
  rw [scanTargets_of_isRoundBest c imageArea minArea _ r s.bestDetectorResult h]
  simp only [applyBest, if_neg hthr]

/-- The round of a session none of whose gated candidates has a positive score,
under a non-negative threshold: `bestMatch` stays `0` and nothing is touched. -/
theorem runRound_of_none (hthr : 0 ≤ thr) (s : Session KeyPoint Desc)
    (h : ∀ x ∈ candidates db s.keypointsQueryImage s.descriptorsQueryImage,
      passesGate c imageArea minArea x = true → x.bestROIMatch ≤ 0) :
    runRound c db imageArea thr mi minArea s =
      (0, { s with rounds := s.rounds + 1,
                   log := s.log ++ (List.range db.length).map Event.analyzeImage }) := by
  unfold runRound scanTargets
  rw [foldl_considerCandidate_keep c imageArea minArea _ 0 s.bestDetectorResult h]
  have h0 : ¬ (0 : ℚ) > thr := not_lt.mpr hthr
  cases hb : s.bestDetectorResult with
  | none => simp only [applyBest]
  | some r => simp only [applyBest, if_neg h0]

/-- A negative threshold keeps the loop running: `bestMatch` is never below `0`. -/
theorem detectLoop_of_neg (hthr : thr < 0) (fuel : Nat) (s : Session KeyPoint Desc) :
    detectLoop c db imageArea thr mi minArea fuel s = none := by
  induction fuel generalizing s with
  | zero => rfl
  | succ n ih =>
    have hgo : (runRound c db imageArea thr mi minArea s).1 > thr :=
      lt_of_lt_of_le hthr (scanTargets_fst_nonneg c imageArea minArea _ _)
    simp only [detectLoop, if_pos hgo]
    exact ih _

theorem detectLoop_succ_of_gt (fuel : Nat) (s : Session KeyPoint Desc)
    (h : (runRound c db imageArea thr mi minArea s).1 > thr) :
    detectLoop c db imageArea thr mi minArea (fuel + 1) s =
      detectLoop c db imageArea thr mi minArea fuel
        (runRound c db imageArea thr mi minArea s).2 := by
  simp only [detectLoop, if_pos h]

theorem detectLoop_succ_of_not_gt (fuel : Nat) (s : Session KeyPoint Desc)
    (h : ¬ (runRound c db imageArea thr mi minArea s).1 > thr) :
    detectLoop c db imageArea thr mi minArea (fuel + 1) s =
      some (runRound c db imageArea thr mi minArea s).2 := by
  simp only [detectLoop, if_neg h]

end Loop

/-! ## Properties of `detectTargets` -/

theorem passesGate_convex {Img KeyPoint Desc : Type} (c : Collaborators Img KeyPoint Desc)
    (imageArea minArea : ℚ) (r : DetectorResult)
    (h : passesGate c imageArea minArea r = true) :
    c.isContourConvex r.targetContour = true := by
  unfold passesGate at h
  exact (Bool.and_eq_true _ _ ▸ h).2

theorem passesGate_area {Img KeyPoint Desc : Type} (c : Collaborators Img KeyPoint Desc)
    (imageArea minArea : ℚ) (r : DetectorResult)
    (h : passesGate c imageArea minArea r = true) (harea : imageArea ≠ 0) :
    c.contourArea r.targetContour / imageArea > minArea := by
  unfold passesGate at h
  rw [if_neg harea] at h
  exact of_decide_eq_true (Bool.and_eq_true _ _ ▸ h).1

/-- C1: when the feature detector finds fewer than 4 query keypoints,
`detectTargets` returns the empty list at once, whatever the fuel: the caller's
image is untouched, no round is run, and the only collaborator call is the
feature detection (no descriptor extraction, no `analyzeImage`, no inlier
removal). -/
theorem detectTargets_few_keypoints {Img KeyPoint Desc : Type}
    (c : Collaborators Img KeyPoint Desc) (db : List (TargetDetector KeyPoint Desc))
    (fuel : Nat) (image : Img) (thr : ℚ) (mi : Nat) (minArea : ℚ)
    (h : (c.detect image).length < 4) :
    detectTargets c db fuel image thr mi minArea =
      some { detectorResults := [], image := image, rounds := 0,
             log := [Event.featureDetect] } := by
  unfold detectTargets
  rw [if_pos h]

theorem detectTargets_few_keypoints_witness :
    (world.detect 1).length < 4 ∧
    detectTargets world [targetA, targetB] 0 1 (1 / 10) 3 (1 / 10) =
      some { detectorResults := [], image := 1, rounds := 0,
             log := [Event.featureDetect] } :=
  ⟨by decide, detectTargets_few_keypoints world [targetA, targetB] 0 1 (1 / 10) 3 (1 / 10)
    (by decide)⟩

/-- C3: the `for` loop of a round either selects nothing (no gated candidate
has a positive score; `bestMatch` stays `0` and `bestDetectorResult` keeps its
old value) or selects the result of a database entry `t` that passed the gate
(convex contour, and contour area over image area above the minimum), whose
score is at least the score of every gated candidate of the round and strictly
above the score of every gated candidate evaluated before it. -/
theorem round_selects_first_top_gated {Img KeyPoint Desc : Type}
    (c : Collaborators Img KeyPoint Desc) (db : List (TargetDetector KeyPoint Desc))
    (imageArea minArea : ℚ) (keypoints : List KeyPoint) (descriptors : List Desc)
    (prev : Option DetectorResult) :
    (scanTargets c imageArea minArea (candidates db keypoints descriptors) prev = (0, prev) ∧
      ∀ u ∈ db, passesGate c imageArea minArea (u.analyzeImage keypoints descriptors) = true →
        (u.analyzeImage keypoints descriptors).bestROIMatch ≤ 0) ∨
    ∃ before t after, db = before ++ t :: after ∧
      scanTargets c imageArea minArea (candidates db keypoints descriptors) prev =
        ((t.analyzeImage keypoints descriptors).bestROIMatch,
         some (t.analyzeImage keypoints descriptors)) ∧
      passesGate c imageArea minArea (t.analyzeImage keypoints descriptors) = true ∧
      c.isContourConvex (t.analyzeImage keypoints descriptors).targetContour = true ∧
      (imageArea ≠ 0 →
        c.contourArea (t.analyzeImage keypoints descriptors).targetContour / imageArea
          > minArea) ∧
      (∀ u ∈ db,
        passesGate c imageArea minArea (u.analyzeImage keypoints descriptors) = true →
        (u.analyzeImage keypoints descriptors).bestROIMatch
          ≤ (t.analyzeImage keypoints descriptors).bestROIMatch) ∧
      (∀ u ∈ before,
        passesGate c imageArea minArea (u.analyzeImage keypoints descriptors) = true →
        (u.analyzeImage keypoints descriptors).bestROIMatch
          < (t.analyzeImage keypoints descriptors).bestROIMatch) := by
  rcases scanTargets_cases c imageArea minArea (candidates db keypoints descriptors) prev with
    ⟨hscan, hnone⟩ | ⟨r, hbest, hscan⟩
  · left
    refine ⟨hscan, fun u hu hg => hnone _ ?_ hg⟩
    exact List.mem_map.mpr ⟨u, hu, rfl⟩
  · right
    have hle := IsRoundBest.le c imageArea minArea hbest
    obtain ⟨pre, post, hsplit, hg, -, hpre, -⟩ := hbest
    unfold candidates at hsplit
    obtain ⟨before, rest, hdb, hbefore, hrest⟩ := List.map_eq_append_iff.mp hsplit
    obtain ⟨t, after, hrest', ht, -⟩ := List.map_eq_cons_iff.mp hrest
    subst ht
    refine ⟨before, t, after, by rw [hdb, hrest'], hscan, hg,
      passesGate_convex c imageArea minArea _ hg,
      passesGate_area c imageArea minArea _ hg, ?_, ?_⟩
    · intro u hu hgu
      exact hle _ (List.mem_map.mpr ⟨u, hu, rfl⟩) hgu
    · intro u hu hgu
      apply hpre _ _ hgu
      rw [← hbefore]
      exact List.mem_map.mpr ⟨u, hu, rfl⟩

/-- C4: in a round whose best candidate `r` has a score above the threshold,
`r` is appended to the output exactly when it has more than
`minimumNumberInliers` inliers (otherwise the output is unchanged), and in both
cases the inliers of `r` are removed from the working query keypoints and
descriptors, on which the next round then runs. -/
theorem best_above_threshold_consumed {Img KeyPoint Desc : Type}
    (c : Collaborators Img KeyPoint Desc) (db : List (TargetDetector KeyPoint Desc))
    (imageArea thr : ℚ) (mi : Nat) (minArea : ℚ) (fuel : Nat)
    (s : Session KeyPoint Desc) (r : DetectorResult)
    (hbest : IsRoundBest c imageArea minArea
      (candidates db s.keypointsQueryImage s.descriptorsQueryImage) r)
    (hthr : r.bestROIMatch > thr) :
    (r.inliers.length > mi →
      (runRound c db imageArea thr mi minArea s).2.detectorResults
        = s.detectorResults ++ [r]) ∧
    (¬ r.inliers.length > mi →
      (runRound c db imageArea thr mi minArea s).2.detectorResults = s.detectorResults) ∧
    ((runRound c db imageArea thr mi minArea s).2.keypointsQueryImage,
     (runRound c db imageArea thr mi minArea s).2.descriptorsQueryImage)
      = removeInliersFromKeypointsAndDescriptors r.inliers
          s.keypointsQueryImage s.descriptorsQueryImage ∧
    detectLoop c db imageArea thr mi minArea (fuel + 1) s
      = detectLoop c db imageArea thr mi minArea fuel
          (runRound c db imageArea thr mi minArea s).2 := by
  have hround := runRound_of_isRoundBest c db imageArea thr mi minArea s r hbest hthr
  refine ⟨?_, ?_, ?_, ?_⟩
  · intro hin
    rw [hround]
    simp only [if_pos hin]
  · intro hin
    rw [hround]
    simp only [if_neg hin]
  · rw [hround]
  · apply detectLoop_succ_of_gt
    rw [hround]
    exact hthr

theorem candidates_world_first_round :
    candidates [targetA, targetB] (initialSession world 0).keypointsQueryImage
      (initialSession world 0).descriptorsQueryImage = [resultA, resultB] := by
  simp [candidates, initialSession, world, targetA, targetB, resultA, resultB]

theorem passesGate_world_resultA : passesGate world 4 (1 / 10) resultA = true := by
  simp [passesGate, world, resultA]
  norm_num

theorem passesGate_world_resultB : passesGate world 4 (1 / 10) resultB = false := by
  simp [passesGate, world, resultB]

theorem isRoundBest_world_first_round :
    IsRoundBest world 4 (1 / 10)
      (candidates [targetA, targetB] (initialSession world 0).keypointsQueryImage
        (initialSession world 0).descriptorsQueryImage) resultA := by
  refine ⟨[], [resultB], ?_, passesGate_world_resultA, ?_, ?_, ?_⟩
  · rw [candidates_world_first_round]
    rfl
  · norm_num [resultA]
  · simp
  · intro x hx hg
    rw [List.mem_singleton.mp hx, passesGate_world_resultB] at hg
    exact absurd hg (by decide)

theorem best_above_threshold_consumed_witness :
    IsRoundBest world 4 (1 / 10)
      (candidates [targetA, targetB] (initialSession world 0).keypointsQueryImage
        (initialSession world 0).descriptorsQueryImage) resultA ∧
    resultA.bestROIMatch > 1 / 10 ∧
    (runRound world [targetA, targetB] 4 (1 / 10) 3 (1 / 10)
      (initialSession world 0)).2.detectorResults = [] ++ [resultA] ∧
    ((runRound world [targetA, targetB] 4 (1 / 10) 3 (1 / 10)
        (initialSession world 0)).2.keypointsQueryImage,
     (runRound world [targetA, targetB] 4 (1 / 10) 3 (1 / 10)
        (initialSession world 0)).2.descriptorsQueryImage)
      = removeInliersFromKeypointsAndDescriptors resultA.inliers
          [10, 11, 12, 13, 14, 15] [10, 11, 12, 13, 14, 15] := by
  have hthr : resultA.bestROIMatch > 1 / 10 := by norm_num [resultA]
  have h := best_above_threshold_consumed world [targetA, targetB] 4 (1 / 10) 3 (1 / 10) 0
    (initialSession world 0) resultA isRoundBest_world_first_round hthr
  exact ⟨isRoundBest_world_first_round, hthr, h.1 (by decide), h.2.2.1⟩

/-- C10: under a non-negative threshold the value that `bestDetectorResult`
carries over from earlier rounds never matters. (1) Replacing it by any other
value changes neither the round's `bestMatch` nor the output list nor the
working query keypoints and descriptors after the round. (2) Whenever the
condition of line 120 holds (`bestDetectorResult` is set and `bestMatch` exceeds
the threshold), the result that is appended and whose inliers are removed is the
round's best candidate, returned in this round by `analyzeImage` of a database
entry on the current working keypoints and descriptors. -/
theorem round_uses_fresh_result {Img KeyPoint Desc : Type}
    (c : Collaborators Img KeyPoint Desc) (db : List (TargetDetector KeyPoint Desc))
    (imageArea thr : ℚ) (mi : Nat) (minArea : ℚ) (hthr : 0 ≤ thr)
    (s : Session KeyPoint Desc) :
    (∀ stale : Option DetectorResult,
      (runRound c db imageArea thr mi minArea { s with bestDetectorResult := stale }).1
        = (runRound c db imageArea thr mi minArea s).1 ∧
      (runRound c db imageArea thr mi minArea
          { s with bestDetectorResult := stale }).2.detectorResults
        = (runRound c db imageArea thr mi minArea s).2.detectorResults ∧
      (runRound c db imageArea thr mi minArea
          { s with bestDetectorResult := stale }).2.keypointsQueryImage
        = (runRound c db imageArea thr mi minArea s).2.keypointsQueryImage ∧
      (runRound c db imageArea thr mi minArea
          { s with bestDetectorResult := stale }).2.descriptorsQueryImage
        = (runRound c db imageArea thr mi minArea s).2.descriptorsQueryImage) ∧
    (∀ r : DetectorResult,
      (scanTargets c imageArea minArea
        (candidates db s.keypointsQueryImage s.descriptorsQueryImage)
        s.bestDetectorResult).2 = some r →
      (scanTargets c imageArea minArea
        (candidates db s.keypointsQueryImage s.descriptorsQueryImage)
        s.bestDetectorResult).1 > thr →
      (∃ t ∈ db, r = t.analyzeImage s.keypointsQueryImage s.descriptorsQueryImage) ∧
      IsRoundBest c imageArea minArea
        (candidates db s.keypointsQueryImage s.descriptorsQueryImage) r ∧
      (runRound c db imageArea thr mi minArea s).2.detectorResults
        = (if r.inliers.length > mi then s.detectorResults ++ [r] else s.detectorResults) ∧
      ((runRound c db imageArea thr mi minArea s).2.keypointsQueryImage,
       (runRound c db imageArea thr mi minArea s).2.descriptorsQueryImage)
        = removeInliersFromKeypointsAndDescriptors r.inliers
            s.keypointsQueryImage s.descriptorsQueryImage) := by
  constructor
  · intro stale
    rcases roundBest_or_none c imageArea minArea
        (candidates db s.keypointsQueryImage s.descriptorsQueryImage) with hnone | ⟨r, hbest⟩
    · rw [runRound_of_none c db imageArea thr mi minArea hthr s hnone,
        runRound_of_none c db imageArea thr mi minArea hthr
          { s with bestDetectorResult := stale } hnone]
      exact ⟨rfl, rfl, rfl, rfl⟩
    · by_cases hr : r.bestROIMatch > thr
      · rw [runRound_of_isRoundBest c db imageArea thr mi minArea s r hbest hr,
          runRound_of_isRoundBest c db imageArea thr mi minArea
            { s with bestDetectorResult := stale } r hbest hr]
        exact ⟨rfl, rfl, rfl, rfl⟩
      · rw [runRound_of_isRoundBest_le c db imageArea thr mi minArea s r hbest hr,
          runRound_of_isRoundBest_le c db imageArea thr mi minArea
            { s with bestDetectorResult := stale } r hbest hr]
        exact ⟨rfl, rfl, rfl, rfl⟩
  · intro r hsome hgt
    rcases scanTargets_cases c imageArea minArea
        (candidates db s.keypointsQueryImage s.descriptorsQueryImage)
        s.bestDetectorResult with ⟨hscan, -⟩ | ⟨r', hbest, hscan⟩
    · rw [hscan] at hgt
      exact absurd hgt (not_lt.mpr hthr)
    · rw [hscan] at hsome hgt
      have hrr : r' = r := Option.some.inj hsome
      subst hrr
      have hmem := IsRoundBest.mem c imageArea minArea hbest
      obtain ⟨t, ht, htr⟩ := List.mem_map.mp hmem
      have hround := runRound_of_isRoundBest c db imageArea thr mi minArea s r' hbest hgt
      refine ⟨⟨t, ht, htr.symm⟩, hbest, ?_, ?_⟩
      · rw [hround]
      · rw [hround]

theorem round_uses_fresh_result_witness :
    (0 : ℚ) ≤ 1 / 10 ∧
    (runRound world [targetA, targetB] 4 (1 / 10) 3 (1 / 10)
      { initialSession world 0 with bestDetectorResult := some resultB }).2.detectorResults
      = (runRound world [targetA, targetB] 4 (1 / 10) 3 (1 / 10)
          (initialSession world 0)).2.detectorResults :=
  ⟨by norm_num,
   ((round_uses_fresh_result world [targetA, targetB] 4 (1 / 10) 3 (1 / 10) (by norm_num)
      (initialSession world 0)).1 (some resultB)).2.1⟩

/-- With at least 4 query keypoints `detectTargets` is the loop run from the
initial locals. -/
theorem detectTargets_of_enough_keypoints {Img KeyPoint Desc : Type}
    (c : Collaborators Img KeyPoint Desc) (db : List (TargetDetector KeyPoint Desc))
    (fuel : Nat) (image : Img) (thr : ℚ) (mi : Nat) (minArea : ℚ)
    (hkp : ¬ (c.detect image).length < 4) :
    detectTargets c db fuel image thr mi minArea =
      (detectLoop c db (loopImageArea c image) thr mi minArea fuel (initialSession c image)).map
        (fun s => { detectorResults := s.detectorResults, image := annotatedImage c image,
                    rounds := s.rounds, log := s.log }) := by
  unfold detectTargets
  rw [if_neg hkp]

/-- With at least 4 query keypoints and a negative threshold `detectTargets`
does not return, whatever the database. -/
theorem detectTargets_of_neg {Img KeyPoint Desc : Type}
    (c : Collaborators Img KeyPoint Desc) (db : List (TargetDetector KeyPoint Desc))
    (fuel : Nat) (image : Img) (thr : ℚ) (mi : Nat) (minArea : ℚ)
    (hthr : thr < 0) (hkp : ¬ (c.detect image).length < 4) :
    detectTargets c db fuel image thr mi minArea = none := by
  unfold detectTargets
  rw [if_neg hkp]
  simp only [detectLoop_of_neg c db _ thr mi minArea hthr, Option.map_none']

section Termination

variable {Img KeyPoint Desc : Type} (c : Collaborators Img KeyPoint Desc)
  (db : List (TargetDetector KeyPoint Desc)) (imageArea thr : ℚ) (mi : Nat) (minArea : ℚ)

/-- Under a non-negative threshold a round after which the loop goes on has
removed at least one working query keypoint. -/
theorem runRound_shrinks (hthr : 0 ≤ thr) (hdb : InliersInRange db)
    (s : Session KeyPoint Desc)
    (hgo : (runRound c db imageArea thr mi minArea s).1 > thr) :
    (runRound c db imageArea thr mi minArea s).2.keypointsQueryImage.length
      < s.keypointsQueryImage.length := by
  rcases roundBest_or_none c imageArea minArea
      (candidates db s.keypointsQueryImage s.descriptorsQueryImage) with hnone | ⟨r, hbest⟩
  · rw [runRound_of_none c db imageArea thr mi minArea hthr s hnone] at hgo
    exact absurd hgo (not_lt.mpr hthr)
  · by_cases hr : r.bestROIMatch > thr
    · rw [runRound_of_isRoundBest c db imageArea thr mi minArea s r hbest hr]
      obtain ⟨t, ht, htr⟩ := List.mem_map.mp (IsRoundBest.mem c imageArea minArea hbest)
      have hpos : 0 < r.bestROIMatch := lt_of_le_of_lt hthr hr
      rw [← htr] at hpos
      obtain ⟨m, hm, hlt⟩ := hdb t ht _ _ hpos
      rw [htr] at hm
      exact length_eraseIndices_lt _ 0 _ m.queryIdx (List.mem_map.mpr ⟨m, hm, rfl⟩)
        (Nat.zero_le _) (by simpa using hlt)
    · rw [runRound_of_isRoundBest_le c db imageArea thr mi minArea s r hbest hr] at hgo
      exact absurd hgo hr

/-- Under a non-negative threshold the loop returns as soon as the fuel exceeds
the number of working query keypoints, after at most that many rounds plus the
one that ends the session. -/
theorem detectLoop_returns (hthr : 0 ≤ thr) (hdb : InliersInRange db) (fuel : Nat)
    (s : Session KeyPoint Desc) (hfuel : s.keypointsQueryImage.length < fuel) :
    ∃ s', detectLoop c db imageArea thr mi minArea fuel s = some s' ∧
      s'.rounds ≤ s.rounds + s.keypointsQueryImage.length + 1 := by
  induction fuel generalizing s with
  | zero => exact absurd hfuel (Nat.not_lt_zero _)
  | succ n ih =>
    by_cases hgo : (runRound c db imageArea thr mi minArea s).1 > thr
    · have hshrink := runRound_shrinks c db imageArea thr mi minArea hthr hdb s hgo
      obtain ⟨s', hs', hrounds⟩ := ih (runRound c db imageArea thr mi minArea s).2 (by omega)
      refine ⟨s', ?_, ?_⟩
      · rw [detectLoop_succ_of_gt c db imageArea thr mi minArea n s hgo]
        exact hs'
      · rw [runRound_rounds] at hrounds
        omega
    · refine ⟨_, detectLoop_succ_of_not_gt c db imageArea thr mi minArea n s hgo, ?_⟩
      rw [runRound_rounds]
      omega

/-- A round after which the loop goes on had a candidate of positive score. -/
theorem runRound_continues_positive (hthr : 0 ≤ thr) (s : Session KeyPoint Desc)
    (hgo : (runRound c db imageArea thr mi minArea s).1 > thr) :
    ∃ t ∈ db,
      0 < (t.analyzeImage s.keypointsQueryImage s.descriptorsQueryImage).bestROIMatch := by
  rcases roundBest_or_none c imageArea minArea
      (candidates db s.keypointsQueryImage s.descriptorsQueryImage) with hnone | ⟨r, hbest⟩
  · rw [runRound_of_none c db imageArea thr mi minArea hthr s hnone] at hgo
    exact absurd hgo (not_lt.mpr hthr)
  · obtain ⟨t, ht, htr⟩ := List.mem_map.mp (IsRoundBest.mem c imageArea minArea hbest)
    obtain ⟨pre, post, -, -, hpos, -⟩ := hbest
    exact ⟨t, ht, by rw [htr]; exact hpos⟩

/-- When moreover no candidate scores on fewer than 4 working keypoints, the
rounds that do not end the session number at most the working keypoint count
less 3. -/
theorem detectLoop_returns_four (hthr : 0 ≤ thr) (hdb : InliersInRange db)
    (hfour : FitNeedsFour db) (fuel : Nat)
    (s : Session KeyPoint Desc) (hfuel : s.keypointsQueryImage.length < fuel) :
    ∃ s', detectLoop c db imageArea thr mi minArea fuel s = some s' ∧
      s'.rounds ≤ s.rounds + (s.keypointsQueryImage.length - 3) + 1 := by
  induction fuel generalizing s with
  | zero => exact absurd hfuel (Nat.not_lt_zero _)
  | succ n ih =>
    by_cases hgo : (runRound c db imageArea thr mi minArea s).1 > thr
    · have hshrink := runRound_shrinks c db imageArea thr mi minArea hthr hdb s hgo
      obtain ⟨t, ht, hpos⟩ :=
        runRound_continues_positive c db imageArea thr mi minArea hthr s hgo
      have hlen := hfour t ht _ _ hpos
      obtain ⟨s', hs', hrounds⟩ := ih (runRound c db imageArea thr mi minArea s).2 (by omega)
      refine ⟨s', ?_, ?_⟩
      · rw [detectLoop_succ_of_gt c db imageArea thr mi minArea n s hgo]
        exact hs'
      · rw [runRound_rounds] at hrounds
        omega
    · refine ⟨_, detectLoop_succ_of_not_gt c db imageArea thr mi minArea n s hgo, ?_⟩
      rw [runRound_rounds]
      omega

end Termination

/-- C6 (amended): for every image, every threshold `≥ 0` and every other
parameter value, `detectTargets` run against a database with zero target models
returns, after at most one round, with an empty result list. -/
theorem detectTargets_empty_database {Img KeyPoint Desc : Type}
    (c : Collaborators Img KeyPoint Desc) (fuel : Nat) (image : Img)
    (thr : ℚ) (mi : Nat) (minArea : ℚ) (hthr : 0 ≤ thr) :
    ∃ out, detectTargets c ([] : List (TargetDetector KeyPoint Desc)) (fuel + 1) image
        thr mi minArea = some out ∧
      out.detectorResults = [] ∧ out.rounds ≤ 1 := by
  by_cases hkp : (c.detect image).length < 4
  · unfold detectTargets
    rw [if_pos hkp]
    exact ⟨_, rfl, rfl, Nat.zero_le _⟩
  · have hnone : ∀ x ∈ candidates ([] : List (TargetDetector KeyPoint Desc))
        (initialSession c image).keypointsQueryImage
        (initialSession c image).descriptorsQueryImage,
        passesGate c (loopImageArea c image) minArea x = true → x.bestROIMatch ≤ 0 := by
      intro x hx
      simp [candidates] at hx
    have hround := runRound_of_none c [] _ thr mi minArea hthr (initialSession c image) hnone
    have hstop : ¬ (runRound c [] (loopImageArea c image) thr mi minArea
        (initialSession c image)).1 > thr := by
      rw [hround]
      exact not_lt.mpr hthr
    rw [detectTargets_of_enough_keypoints c [] (fuel + 1) image thr mi minArea hkp,
      detectLoop_succ_of_not_gt c [] _ thr mi minArea fuel _ hstop, hround]
    exact ⟨_, rfl, rfl, le_refl _⟩

theorem detectTargets_empty_database_witness :
    (0 : ℚ) ≤ 1 / 10 ∧
    ∃ out, detectTargets world [] 1 0 (1 / 10) 3 (1 / 10) = some out ∧
      out.detectorResults = [] ∧ out.rounds ≤ 1 :=
  ⟨by norm_num, detectTargets_empty_database world 0 0 (1 / 10) 3 (1 / 10) (by norm_num)⟩

/-- C6 (as stated) fails: on image `0` (six keypoints) with threshold `-1` the
call against the empty database returns for no amount of fuel. -/
theorem detectTargets_empty_database_diverges :
    ¬ ∃ fuel out, detectTargets world [] fuel 0 (-1) 0 0 = some out := by
  rintro ⟨fuel, out, h⟩
  rw [detectTargets_of_neg world [] fuel 0 (-1) 0 0 (by norm_num) (by decide)] at h
  exact Option.noConfusion h

/-- C2 (amended): for a threshold `≥ 0` and a database whose positive scores
come with an inlier among the working query keypoints, (1) every round that does
not end the session leaves strictly fewer working query keypoints, (2) the loop
returns once the fuel exceeds the working keypoint count, having run at most
that many rounds plus the one that ends the session, (3) so does
`detectTargets`, counted from the keypoints on entry to the loop, and (4) when no
candidate scores on fewer than 4 working keypoints and the loop is entered with
at least 4 of them, the number of rounds is at most the initial keypoint
count. -/
theorem detectLoop_terminates {Img KeyPoint Desc : Type}
    (c : Collaborators Img KeyPoint Desc) (db : List (TargetDetector KeyPoint Desc))
    (thr : ℚ) (mi : Nat) (minArea : ℚ) (hthr : 0 ≤ thr) (hdb : InliersInRange db) :
    (∀ (imageArea : ℚ) (s : Session KeyPoint Desc),
      (runRound c db imageArea thr mi minArea s).1 > thr →
      (runRound c db imageArea thr mi minArea s).2.keypointsQueryImage.length
        < s.keypointsQueryImage.length) ∧
    (∀ (imageArea : ℚ) (fuel : Nat) (s : Session KeyPoint Desc),
      s.keypointsQueryImage.length < fuel →
      ∃ s', detectLoop c db imageArea thr mi minArea fuel s = some s' ∧
        s'.rounds ≤ s.rounds + s.keypointsQueryImage.length + 1) ∧
    (∀ (fuel : Nat) (image : Img),
      (initialSession c image).keypointsQueryImage.length < fuel →
      ∃ out, detectTargets c db fuel image thr mi minArea = some out ∧
        out.rounds ≤ (initialSession c image).keypointsQueryImage.length + 1) ∧
    (∀ (fuel : Nat) (image : Img),
      (initialSession c image).keypointsQueryImage.length < fuel →
      FitNeedsFour db → 4 ≤ (initialSession c image).keypointsQueryImage.length →
      ∃ out, detectTargets c db fuel image thr mi minArea = some out ∧
        out.rounds ≤ (initialSession c image).keypointsQueryImage.length) := by
  refine ⟨fun imageArea s => runRound_shrinks c db imageArea thr mi minArea hthr hdb s,
    fun imageArea fuel s => detectLoop_returns c db imageArea thr mi minArea hthr hdb fuel s,
    ?_, ?_⟩
  · intro fuel image hfuel
    by_cases hkp : (c.detect image).length < 4
    · unfold detectTargets
      rw [if_pos hkp]
      exact ⟨_, rfl, Nat.zero_le _⟩
    · obtain ⟨s', hs', hrounds⟩ := detectLoop_returns c db (loopImageArea c image)
        thr mi minArea hthr hdb fuel (initialSession c image) hfuel
      rw [detectTargets_of_enough_keypoints c db fuel image thr mi minArea hkp, hs']
      refine ⟨_, rfl, ?_⟩
      have h0 : (initialSession c image).rounds = 0 := rfl
      simp only
      omega
  · intro fuel image hfuel hfour hlen
    by_cases hkp : (c.detect image).length < 4
    · unfold detectTargets
      rw [if_pos hkp]
      exact ⟨_, rfl, Nat.zero_le _⟩
    · obtain ⟨s', hs', hrounds⟩ := detectLoop_returns_four c db (loopImageArea c image)
        thr mi minArea hthr hdb hfour fuel (initialSession c image) hfuel
      rw [detectTargets_of_enough_keypoints c db fuel image thr mi minArea hkp, hs']
      refine ⟨_, rfl, ?_⟩
      have h0 : (initialSession c image).rounds = 0 := rfl
      simp only
      omega

theorem inliersInRange_world : InliersInRange [targetA, targetB] := by
  intro t ht keypoints descriptors hpos
  rcases List.mem_cons.mp ht with h | h
  · subst h
    by_cases h6 : 6 ≤ keypoints.length
    · refine ⟨⟨0, 0⟩, ?_, ?_⟩
      · simp [targetA, h6]
      · show 0 < keypoints.length
        omega
    · simp [targetA, h6] at hpos
  · rw [List.mem_singleton.mp h] at hpos
    simp [targetB] at hpos

theorem fitNeedsFour_world : FitNeedsFour [targetA, targetB] := by
  intro t ht keypoints descriptors hpos
  rcases List.mem_cons.mp ht with h | h
  · subst h
    by_cases h6 : 6 ≤ keypoints.length
    · omega
    · simp [targetA, h6] at hpos
  · rw [List.mem_singleton.mp h] at hpos
    simp [targetB] at hpos

theorem detectLoop_terminates_witness :
    (0 : ℚ) ≤ 1 / 10 ∧ InliersInRange [targetA, targetB] ∧
    (∃ out, detectTargets world [targetA, targetB] 7 0 (1 / 10) 3 (1 / 10) = some out ∧
      out.rounds ≤ (initialSession world 0).keypointsQueryImage.length + 1) ∧
    (∃ out, detectTargets world [targetA, targetB] 7 0 (1 / 10) 3 (1 / 10) = some out ∧
      out.rounds ≤ (initialSession world 0).keypointsQueryImage.length) :=
  ⟨by norm_num, inliersInRange_world,
   (detectLoop_terminates world [targetA, targetB] (1 / 10) 3 (1 / 10) (by norm_num)
      inliersInRange_world).2.2.1 7 0 (by decide),
   (detectLoop_terminates world [targetA, targetB] (1 / 10) 3 (1 / 10) (by norm_num)
      inliersInRange_world).2.2.2 7 0 (by decide) fitNeedsFour_world (by decide)⟩

theorem inliersInRange_targetB : InliersInRange [targetB] :=
  fun t ht => inliersInRange_world t (List.mem_cons_of_mem _ ht)

/-- C2 (as stated) fails: with threshold `-1` the loop over the database
`[targetB]`, which never reports a positive score, entered with the six
keypoints of image `0`, returns for no amount of fuel: every round leaves
`bestMatch` at `0`, removes nothing, and `0 > -1` starts the next round. -/
theorem detectLoop_negative_threshold_diverges :
    InliersInRange [targetB] ∧
    (initialSession world 0).keypointsQueryImage.length = 6 ∧
    ¬ ∃ fuel s', detectLoop world [targetB] (loopImageArea world 0) (-1) 3 (1 / 10) fuel
        (initialSession world 0) = some s' := by
  refine ⟨inliersInRange_targetB, rfl, ?_⟩
  rintro ⟨fuel, s', h⟩
  rw [detectLoop_of_neg world [targetB] _ (-1) 3 (1 / 10) (by norm_num)] at h
  exact Option.noConfusion h

theorem applyBest_results_extend {KeyPoint Desc : Type} (thr : ℚ) (mi : Nat)
    (s : Session KeyPoint Desc) (bestMatch : ℚ) (best : Option DetectorResult)
    (log : List Event) :
    ∃ appended, (applyBest thr mi s bestMatch best log).detectorResults
      = s.detectorResults ++ appended := by
  cases best with
  | none => exact ⟨[], (List.append_nil _).symm⟩
  | some r =>
    simp only [applyBest]
    split_ifs
    · exact ⟨[r], rfl⟩
    · exact ⟨[], (List.append_nil _).symm⟩
    · exact ⟨[], (List.append_nil _).symm⟩

/-- The list a returning loop ends with starts with the list it was entered
with: rounds only ever append. -/
theorem detectLoop_results_extend {Img KeyPoint Desc : Type}
    (c : Collaborators Img KeyPoint Desc) (db : List (TargetDetector KeyPoint Desc))
    (imageArea thr : ℚ) (mi : Nat) (minArea : ℚ) (fuel : Nat)
    (s s' : Session KeyPoint Desc)
    (h : detectLoop c db imageArea thr mi minArea fuel s = some s') :
    ∃ appended, s'.detectorResults = s.detectorResults ++ appended := by
  induction fuel generalizing s with
  | zero => exact Option.noConfusion h
  | succ n ih =>
    obtain ⟨first, hfirst⟩ : ∃ appended,
        (runRound c db imageArea thr mi minArea s).2.detectorResults
          = s.detectorResults ++ appended :=
      applyBest_results_extend thr mi s _ _ _
    by_cases hgo : (runRound c db imageArea thr mi minArea s).1 > thr
    · rw [detectLoop_succ_of_gt c db imageArea thr mi minArea n s hgo] at h
      obtain ⟨later, hlater⟩ := ih _ h
      exact ⟨first ++ later, by rw [hlater, hfirst, List.append_assoc]⟩
    · rw [detectLoop_succ_of_not_gt c db imageArea thr mi minArea n s hgo] at h
      rw [← Option.some.inj h]
      exact ⟨first, hfirst⟩

/-- C5 (amended): for a threshold `≥ 0`, (1) a round in which no gated
candidate has a score above the threshold ends the loop: it appends nothing,
removes nothing, and the loop returns with the list accumulated so far; (2) a
round in which some gated candidate has a score above the threshold is followed
by another round; (3) the returned list starts with the list accumulated by the
earlier rounds, in the order of the rounds. -/
theorem detectLoop_ends_at_first_round_below_threshold {Img KeyPoint Desc : Type}
    (c : Collaborators Img KeyPoint Desc) (db : List (TargetDetector KeyPoint Desc))
    (imageArea thr : ℚ) (mi : Nat) (minArea : ℚ) (hthr : 0 ≤ thr) :
    (∀ (fuel : Nat) (s : Session KeyPoint Desc),
      (∀ x ∈ candidates db s.keypointsQueryImage s.descriptorsQueryImage,
        passesGate c imageArea minArea x = true → x.bestROIMatch ≤ thr) →
      ∃ s', detectLoop c db imageArea thr mi minArea (fuel + 1) s = some s' ∧
        s'.detectorResults = s.detectorResults ∧
        s'.keypointsQueryImage = s.keypointsQueryImage ∧
        s'.descriptorsQueryImage = s.descriptorsQueryImage ∧
        s'.rounds = s.rounds + 1) ∧
    (∀ (fuel : Nat) (s : Session KeyPoint Desc),
      (∃ x ∈ candidates db s.keypointsQueryImage s.descriptorsQueryImage,
        passesGate c imageArea minArea x = true ∧ x.bestROIMatch > thr) →
      detectLoop c db imageArea thr mi minArea (fuel + 1) s
        = detectLoop c db imageArea thr mi minArea fuel
            (runRound c db imageArea thr mi minArea s).2) ∧
    (∀ (fuel : Nat) (s s' : Session KeyPoint Desc),
      detectLoop c db imageArea thr mi minArea fuel s = some s' →
      ∃ appended, s'.detectorResults = s.detectorResults ++ appended) := by
  refine ⟨?_, ?_, fun fuel s s' h =>
    detectLoop_results_extend c db imageArea thr mi minArea fuel s s' h⟩
  · intro fuel s hall
    rcases roundBest_or_none c imageArea minArea
        (candidates db s.keypointsQueryImage s.descriptorsQueryImage) with hnone | ⟨r, hbest⟩
    · have hround := runRound_of_none c db imageArea thr mi minArea hthr s hnone
      have hstop : ¬ (runRound c db imageArea thr mi minArea s).1 > thr := by
        rw [hround]
        exact not_lt.mpr hthr
      rw [detectLoop_succ_of_not_gt c db imageArea thr mi minArea fuel s hstop, hround]
      exact ⟨_, rfl, rfl, rfl, rfl, rfl⟩
    · have hr : ¬ r.bestROIMatch > thr := by
        obtain ⟨pre, post, hsplit, hg, -⟩ := hbest
        exact not_lt.mpr (hall r (by rw [hsplit]; simp) hg)
      have hround := runRound_of_isRoundBest_le c db imageArea thr mi minArea s r hbest hr
      have hstop : ¬ (runRound c db imageArea thr mi minArea s).1 > thr := by
        rw [hround]
        exact hr
      rw [detectLoop_succ_of_not_gt c db imageArea thr mi minArea fuel s hstop, hround]
      exact ⟨_, rfl, rfl, rfl, rfl, rfl⟩
  · rintro fuel s ⟨x, hx, hg, hgt⟩
    apply detectLoop_succ_of_gt
    rcases scanTargets_cases c imageArea minArea
        (candidates db s.keypointsQueryImage s.descriptorsQueryImage)
        s.bestDetectorResult with ⟨-, hnone⟩ | ⟨r, hbest, hscan⟩
    · exact absurd (lt_of_le_of_lt hthr hgt) (not_lt.mpr (hnone x hx hg))
    · show (scanTargets c imageArea minArea _ s.bestDetectorResult).1 > thr
      rw [hscan]
      exact lt_of_lt_of_le hgt (IsRoundBest.le c imageArea minArea hbest x hx hg)

/-- C5 (as stated) fails: with threshold `-1/2` and an empty database the first
round has no candidate at all, hence none with a score above the threshold, and
yet the call returns for no amount of fuel. -/
theorem detectTargets_no_candidate_yet_no_end :
    candidates ([] : List (TargetDetector Nat Nat))
      (initialSession world 0).keypointsQueryImage
      (initialSession world 0).descriptorsQueryImage = [] ∧
    ¬ ∃ fuel out, detectTargets world [] fuel 0 (-1 / 2) 3 (1 / 10) = some out := by
  refine ⟨rfl, ?_⟩
  rintro ⟨fuel, out, h⟩
  rw [detectTargets_of_neg world [] fuel 0 (-1 / 2) 3 (1 / 10) (by norm_num) (by decide)] at h
  exact Option.noConfusion h

theorem loopImageArea_world (image : Nat) : loopImageArea world image = 4 := by
  unfold loopImageArea
  simp only [world]
  norm_num [wrapInt32]

theorem runRound_world_first_round :
    runRound world [targetA, targetB] 4 (1 / 10) 3 (1 / 10) (initialSession world 0)
      = (4 / 5, sessionAfterRoundOne) := by
  rw [runRound_of_isRoundBest world [targetA, targetB] 4 (1 / 10) 3 (1 / 10)
    (initialSession world 0) resultA isRoundBest_world_first_round (by norm_num [resultA])]
  simp [sessionAfterRoundOne, resultA, initialSession, world,
    removeInliersFromKeypointsAndDescriptors, eraseIndices, List.range, List.range.loop]

theorem candidates_world_second_round :
    ∀ x ∈ candidates [targetA, targetB] sessionAfterRoundOne.keypointsQueryImage
      sessionAfterRoundOne.descriptorsQueryImage,
      passesGate world 4 (1 / 10) x = true → x.bestROIMatch ≤ 1 / 10 := by
  intro x hx _
  simp [candidates, sessionAfterRoundOne, targetA, targetB] at hx
  rcases hx with h | h <;> rw [h] <;> norm_num

theorem detectLoop_ends_at_first_round_below_threshold_witness :
    (0 : ℚ) ≤ 1 / 10 ∧
    ∃ out, detectTargets world [targetA, targetB] 2 0 (1 / 10) 3 (1 / 10) = some out ∧
      out.detectorResults = [resultA] ∧ out.rounds = 2 := by
  have hthr : (0 : ℚ) ≤ 1 / 10 := by norm_num
  have h := detectLoop_ends_at_first_round_below_threshold world [targetA, targetB] 4
    (1 / 10) 3 (1 / 10) hthr
  have hfirst := h.2.1 1 (initialSession world 0)
    ⟨resultA, IsRoundBest.mem world 4 (1 / 10) isRoundBest_world_first_round,
      passesGate_world_resultA, by norm_num [resultA]⟩
  rw [runRound_world_first_round] at hfirst
  obtain ⟨s', hs', hres, -, -, hrounds⟩ := h.1 0 sessionAfterRoundOne
    candidates_world_second_round
  refine ⟨hthr, ?_⟩
  rw [detectTargets_of_enough_keypoints world [targetA, targetB] 2 0 (1 / 10) 3 (1 / 10)
    (by decide), loopImageArea_world, hfirst, hs']
  exact ⟨_, rfl, hres, hrounds⟩

/-- The scenario of the spec, scaled down: image `0` holds one instance of
`targetA`; round one accepts it with score `4/5`, round two finds nothing above
the threshold and the call returns. The image comes back drawn over. -/
theorem detectTargets_world_scenario :
    detectTargets world [targetA, targetB] 2 0 (1 / 10) 3 (1 / 10) =
      some { detectorResults := [resultA], image := 1, rounds := 2,
             log := [Event.featureDetect, Event.descriptorCompute, Event.drawKeypoints,
               Event.analyzeImage 0, Event.analyzeImage 1, Event.removeInliers,
               Event.analyzeImage 0, Event.analyzeImage 1] } := by
  rw [detectTargets_of_enough_keypoints world [targetA, targetB] 2 0 (1 / 10) 3 (1 / 10)
    (by decide), loopImageArea_world]
  simp [world, annotatedImage, initialSession, detectLoop, runRound,
    scanTargets, candidates, targetA, targetB, resultA, considerCandidate, passesGate,
    applyBest, removeInliersFromKeypointsAndDescriptors, eraseIndices, List.range,
    List.range.loop]
  norm_num

section Schedules

variable {Img KeyPoint Desc : Type} (c : Collaborators Img KeyPoint Desc)
  (db : List (TargetDetector KeyPoint Desc)) (imageArea thr : ℚ) (mi : Nat) (minArea : ℚ)

/-- The loop `detectLoop` is the scheduled loop under the schedule that takes
the database in index order. -/
theorem detectLoopScheduled_sequential (fuel : Nat) (s : Session KeyPoint Desc) :
    detectLoopScheduled c db (sequentialSchedule KeyPoint Desc) imageArea thr mi minArea fuel s
      = detectLoop c db imageArea thr mi minArea fuel s := by
  induction fuel generalizing s with
  | zero => rfl
  | succ n ih =>
    have horder : (sequentialSchedule KeyPoint Desc).order s.rounds db = db := rfl
    simp only [detectLoopScheduled, detectLoop, horder, ih]

end Schedules

/-- The method `detectTargets` of the sequential embedding is
`detectTargetsScheduled` under the schedule that takes the database in index
order. -/
theorem detectTargetsScheduled_sequential {Img KeyPoint Desc : Type}
    (c : Collaborators Img KeyPoint Desc) (db : List (TargetDetector KeyPoint Desc))
    (fuel : Nat) (image : Img) (thr : ℚ) (mi : Nat) (minArea : ℚ) :
    detectTargetsScheduled c db (sequentialSchedule KeyPoint Desc) fuel image thr mi minArea
      = detectTargets c db fuel image thr mi minArea := by
  unfold detectTargetsScheduled detectTargets
  rw [detectLoopScheduled_sequential]

/-- The detection of `evaluateDetector` returns on an image once the fuel
exceeds its keypoint count, when the default threshold is `≥ 0` and the positive
scores of the database come with an inlier among the working keypoints. -/
theorem detectTargetsAndOutputResults_returns {Img KeyPoint Desc : Type}
    (e : EvaluationSetup Img KeyPoint Desc) (fuel : Nat) (image : Img)
    (hthr : 0 ≤ e.minimumMatchAllowed) (hdb : InliersInRange e.targetDetectors)
    (hfuel : (initialSession e.collaborators image).keypointsQueryImage.length < fuel) :
    (detectTargetsAndOutputResults e fuel image).isSome = true := by
  unfold detectTargetsAndOutputResults
  by_cases hkp : (e.collaborators.detect image).length < 4
  · unfold detectTargets
    rw [if_pos hkp]
    rfl
  · obtain ⟨s', hs', -⟩ := detectLoop_returns e.collaborators e.targetDetectors
      (loopImageArea e.collaborators image) e.minimumMatchAllowed e.minimumNumberInliers
      e.minimumTargetAreaPercentage hthr hdb fuel (initialSession e.collaborators image) hfuel
    rw [detectTargets_of_enough_keypoints e.collaborators e.targetDetectors fuel image _ _ _ hkp,
      hs']
    rfl

/-- The loop over the test list adds, to each accumulator, the per-image
values of the loaded images, and counts the loaded images. -/
theorem evaluateImages_totals {Img KeyPoint Desc : Type}
    (e : EvaluationSetup Img KeyPoint Desc) (fuel : Nat)
    (entries : List (String × List Nat)) (totals : EvalTotals)
    (hdetect : ∀ entry ∈ entries, ∀ image, e.loadAndPreprocessImage entry.1 = some image →
      (detectTargetsAndOutputResults e fuel image).isSome = true) :
    evaluateImages e fuel entries totals = some
      { globalPrecision := totals.globalPrecision +
          ((loadedImages e entries).map (fun l => (imageMetrics e fuel l).getPrecision)).sum
        globalRecall := totals.globalRecall +
          ((loadedImages e entries).map (fun l => (imageMetrics e fuel l).getRecall)).sum
        globalAccuracy := totals.globalAccuracy +
          ((loadedImages e entries).map (fun l => (imageMetrics e fuel l).getAccuracy)).sum
        numberTestImages := totals.numberTestImages + (loadedImages e entries).length } := by
  induction entries generalizing totals with
  | nil => simp [evaluateImages, loadedImages]
  | cons entry rest ih =>
    have hrest : ∀ x ∈ rest, ∀ image, e.loadAndPreprocessImage x.1 = some image →
        (detectTargetsAndOutputResults e fuel image).isSome = true :=
      fun x hx => hdetect x (List.mem_cons_of_mem _ hx)
    cases hload : e.loadAndPreprocessImage entry.1 with
    | none =>
      have hl : loadedImages e (entry :: rest) = loadedImages e rest := by
        simp [loadedImages, hload]
      simp only [evaluateImages, evaluateImage, hload, hl]
      exact ih totals hrest
    | some image =>
      have hsome := hdetect entry (List.mem_cons_self _ _) image hload
      obtain ⟨results, hresults⟩ := Option.isSome_iff_exists.mp hsome
      have hl : loadedImages e (entry :: rest) = (image, entry.2) :: loadedImages e rest := by
        simp [loadedImages, hload]
      have hm : imageMetrics e fuel (image, entry.2)
          = e.evaluationResult (results.insertionSort (· ≤ ·)) entry.2 := by
        simp [imageMetrics, hresults]
      simp only [evaluateImages, evaluateImage, hload, hresults, hl]
      rw [ih _ hrest]
      simp only [List.map_cons, List.sum_cons, List.length_cons, hm]
      congr 2 <;> ring

theorem divideByCount_of_pos (total : ℚ) (n : Nat) (h : n ≠ 0) :
    divideByCount total n = Dbl.val (total / n) := by
  unfold divideByCount
  rw [if_neg h]

/-- C8: when the detection returns on every image that loads and at least one
image loads, the aggregate returned by `evaluateDetector` is, for each of
precision, recall and accuracy, the arithmetic mean of the per-image values over
the loaded images: their sum over exactly the loaded images divided by the
number of loaded images. Images that fail to load are not among `loadedImages`,
so they add nothing to a sum and are not counted in the denominator. -/
theorem evaluateDetector_aggregate_is_mean {Img KeyPoint Desc : Type}
    (e : EvaluationSetup Img KeyPoint Desc) (fuel : Nat)
    (entries : List (String × List Nat))
    (hdetect : ∀ entry ∈ entries, ∀ image, e.loadAndPreprocessImage entry.1 = some image →
      (detectTargetsAndOutputResults e fuel image).isSome = true)
    (hloaded : loadedImages e entries ≠ []) :
    evaluateDetector e fuel true (some entries) = some
      { getPrecision := Dbl.val (arithmeticMean
          ((loadedImages e entries).map (fun l => (imageMetrics e fuel l).getPrecision)))
        getRecall := Dbl.val (arithmeticMean
          ((loadedImages e entries).map (fun l => (imageMetrics e fuel l).getRecall)))
        getAccuracy := Dbl.val (arithmeticMean
          ((loadedImages e entries).map (fun l => (imageMetrics e fuel l).getAccuracy))) } := by
  have hn : (loadedImages e entries).length ≠ 0 := by
    simpa using hloaded
  simp only [evaluateDetector, evaluateImages_totals e fuel entries _ hdetect, Option.map_some',
    arithmeticMean, List.length_map, zero_add, divideByCount_of_pos _ _ hn]

theorem detectTargetsAndOutputResults_blank :
    detectTargetsAndOutputResults testSetup 2 1 = some [] := by
  simp [detectTargetsAndOutputResults, testSetup, detectTargets, world]

theorem detectTargetsAndOutputResults_photo :
    detectTargetsAndOutputResults testSetup 2 0 = some [1] := by
  unfold detectTargetsAndOutputResults
  show (detectTargets world [targetA, targetB] 2 0 (1 / 10) 3 (1 / 10)).map _ = _
  rw [detectTargets_world_scenario]
  rfl

theorem loadedImages_testEntries :
    loadedImages testSetup testEntries = [(0, [1]), (1, [1])] := by
  simp [loadedImages, testEntries, testSetup]

theorem testEntries_detection_returns :
    ∀ entry ∈ testEntries, ∀ image,
      testSetup.loadAndPreprocessImage entry.1 = some image →
      (detectTargetsAndOutputResults testSetup 2 image).isSome = true := by
  intro entry hentry image hload
  have hmem : (image, entry.2) ∈ loadedImages testSetup testEntries :=
    List.mem_filterMap.mpr ⟨entry, hentry, by rw [hload]; rfl⟩
  rw [loadedImages_testEntries] at hmem
  simp only [List.mem_cons, Prod.mk.injEq, List.mem_singleton, List.not_mem_nil, or_false]
    at hmem
  rcases hmem with ⟨h, -⟩ | ⟨h, -⟩
  · rw [h, detectTargetsAndOutputResults_photo]
    rfl
  · rw [h, detectTargetsAndOutputResults_blank]
    rfl

theorem evaluateDetector_aggregate_is_mean_witness :
    (∀ entry ∈ testEntries, ∀ image,
      testSetup.loadAndPreprocessImage entry.1 = some image →
      (detectTargetsAndOutputResults testSetup 2 image).isSome = true) ∧
    loadedImages testSetup testEntries ≠ [] ∧
    evaluateDetector testSetup 2 true (some testEntries) = some
      { getPrecision := Dbl.val (arithmeticMean
          ((loadedImages testSetup testEntries).map
            (fun l => (imageMetrics testSetup 2 l).getPrecision)))
        getRecall := Dbl.val (arithmeticMean
          ((loadedImages testSetup testEntries).map
            (fun l => (imageMetrics testSetup 2 l).getRecall)))
        getAccuracy := Dbl.val (arithmeticMean
          ((loadedImages testSetup testEntries).map
            (fun l => (imageMetrics testSetup 2 l).getAccuracy))) } :=
  ⟨testEntries_detection_returns,
   by rw [loadedImages_testEntries]; exact List.cons_ne_nil _ _,
   evaluateDetector_aggregate_is_mean testSetup 2 testEntries testEntries_detection_returns
     (by rw [loadedImages_testEntries]; exact List.cons_ne_nil _ _)⟩

/-- C7 (amended): if the results file cannot be created or the test-list file
cannot be opened, `evaluateDetector` runs no evaluation (whatever the setup, the
fuel and the contents of the other file) and returns the aggregate `(0, 0, 0)`. -/
theorem evaluateDetector_unopened_files {Img KeyPoint Desc : Type}
    (e : EvaluationSetup Img KeyPoint Desc) (fuel : Nat) (resultsFileOpen : Bool)
    (imgsList : Option (List (String × List Nat)))
    (h : resultsFileOpen = false ∨ imgsList = none) :
    evaluateDetector e fuel resultsFileOpen imgsList =
      some { getPrecision := Dbl.val 0, getRecall := Dbl.val 0, getAccuracy := Dbl.val 0 } := by
  rcases h with h | h
  · subst h
    rfl
  · subst h
    cases resultsFileOpen <;> rfl

theorem evaluateDetector_unopened_files_witness :
    ((true = false) ∨ (none : Option (List (String × List Nat))) = none) ∧
    evaluateDetector testSetup 0 true none =
      some { getPrecision := Dbl.val 0, getRecall := Dbl.val 0, getAccuracy := Dbl.val 0 } :=
  ⟨Or.inr rfl, evaluateDetector_unopened_files testSetup 0 true none (Or.inr rfl)⟩

/-- C7 (as stated) fails: the completed evaluation of a test list with the one
image `blank.png`, on which nothing is detected although target `1` is expected
(precision, recall and accuracy all `0`), returns the same aggregate as the same
call with the results file not created, and as the call with the test list not
opened. -/
theorem evaluateDetector_failure_looks_like_zero_metrics :
    evaluateDetector testSetup 2 true (some [("blank.png", [1])]) =
      some { getPrecision := Dbl.val 0, getRecall := Dbl.val 0, getAccuracy := Dbl.val 0 } ∧
    evaluateDetector testSetup 2 false (some [("blank.png", [1])]) =
      evaluateDetector testSetup 2 true (some [("blank.png", [1])]) ∧
    evaluateDetector testSetup 2 true none =
      evaluateDetector testSetup 2 true (some [("blank.png", [1])]) := by
  have hload : testSetup.loadAndPreprocessImage "blank.png" = some 1 := by
    simp [testSetup]
  have hrun : evaluateDetector testSetup 2 true (some [("blank.png", [1])]) =
      some { getPrecision := Dbl.val 0, getRecall := Dbl.val 0, getAccuracy := Dbl.val 0 } := by
    simp [evaluateDetector, evaluateImages, evaluateImage, hload,
      detectTargetsAndOutputResults_blank, divideByCount]
    simp [testSetup, specEvaluationResult]
  refine ⟨hrun, ?_, ?_⟩
  · rw [hrun]
    rfl
  · rw [hrun]
    rfl

end CurrencyRecognition
